import Mathlib

/-
  Verification of the session-correlation core of a local agent-session
  explorer: the path codec, the JSONL transcript reader, the session
  correlator probes and the pagination step, embedded shallowly from the
  TypeScript sources (lib/path-utils, lib/claude-data, lib/session-correlator
  and the standalone API routes, which duplicate the same logic).
-/

namespace ClaudeExplorer

/-- One character of the path encoding: a path separator becomes the filler
character, every other character is kept (the regex replace of a slash). -/
def encChar (c : Char) : Char := if c = '/' then '-' else c

/-- One character of the naive decoding: a filler character becomes a path
separator, every other character is kept. -/
def decChar (c : Char) : Char := if c = '-' then '/' else c

/-- Source function encodeProjectPath: replace every path separator with the
filler character. -/
def encodeProjectPath (p : String) : String := String.mk (p.data.map encChar)

/-- Source function decodeProjectPath: a leading filler character stands for
the root separator, every remaining filler becomes a separator. -/
def decodeProjectPath (e : String) : String :=
  match e.data with
  | [] => String.mk []
  | c :: rest =>
      if c = '-' then String.mk ('/' :: rest.map decChar)
      else String.mk ((c :: rest).map decChar)

/-- The config document as far as the codec reads it: the key list of its
projects object in enumeration order, or none when the field is absent. -/
structure Config where
  projects? : Option (List String)
  deriving DecidableEq, Repr

/-- Source function buildPathLookup: insert encode(realPath) to realPath for
every key of config.projects, in enumeration order. The JS Map is modelled
as the ordered list of insertions. -/
def buildPathLookup (config : Config) : List (String × String) :=
  match config.projects? with
  | none => []
  | some ks => ks.map (fun p => (encodeProjectPath p, p))

/-- Map.get over the insertion list model: the latest insertion for a key
wins, as for a JS Map. -/
def mapGet (m : List (String × String)) (k : String) : Option String :=
  (m.reverse.find? (fun e => e.1 == k)).map (fun e => e.2)

/-- Map.size over the insertion list model: the number of distinct keys. -/
def mapSize (m : List (String × String)) : Nat := ((m.map Prod.fst).dedup).length

/-- A JS Date value: either an invalid date or a point in time. -/
inductive JsDate
  | invalid
  | valid (t : Int)
  deriving DecidableEq, Repr

/-- The message envelope of a transcript record as far as the reader reads
it: the model field, when present and truthy. -/
structure Envelope where
  model? : Option String
  deriving DecidableEq, Repr

/-- One parsed transcript line, holding exactly the fields the reader
touches. Every optional field is none when the JSON field is absent or
falsy; a timestamp field that is present and truthy carries the JS Date its
string parses to, which may be the invalid date. -/
structure JsonRecord where
  type? : Option String
  timestamp? : Option JsDate
  uuid? : Option String
  messageId? : Option String
  parentUuid? : Option String
  sessionId? : Option String
  message? : Option Envelope
  cwd? : Option String
  gitBranch? : Option String
  deriving DecidableEq, Repr

/-- The outcome of JSON.parse on one nonblank transcript line. -/
inductive LineParse
  | malformed
  | record (r : JsonRecord)
  deriving DecidableEq, Repr

/-- The snapshot marker type of a transcript record. -/
def snapshotType : String := "file-history-snapshot"

/-- A record with only a type and a timestamp, every other field absent. -/
def mkRec (ty : Option String) (ts : Option JsDate) : JsonRecord :=
  ⟨ty, ts, none, none, none, none, none, none, none⟩

/-- The result record of getSessionBounds. -/
structure SessionBounds where
  startTime : JsDate
  endTime : Option JsDate
  messageCount : Nat
  model? : Option String
  deriving DecidableEq, Repr

/-- The messageCount increment of the loop body. -/
def countStep (acc : SessionBounds) : SessionBounds :=
  { acc with messageCount := acc.messageCount + 1 }

/-- The timestamp handling of the loop body at line index i: a truthy
timestamp sets endTime, and sets startTime too on the first line. -/
def stampStep (i : Nat) (acc : SessionBounds) (r : JsonRecord) : SessionBounds :=
  match r.timestamp? with
  | some t =>
      { acc with
        startTime := if i = 0 then t else acc.startTime
        endTime := some t }
  | none => acc

/-- The model handling of the loop body: an assistant record whose envelope
carries a truthy model sets the model. -/
def modelStep (acc : SessionBounds) (r : JsonRecord) : SessionBounds :=
  if r.type? = some "assistant" then
    match r.message?.bind Envelope.model? with
    | some m => { acc with model? := some m }
    | none => acc
  else acc

/-- One iteration of the getSessionBounds loop, at line index i: skip a
malformed line, skip a snapshot record, and run the three body steps on
every other record, in source order. -/
def boundsLine (i : Nat) (acc : SessionBounds) : LineParse → SessionBounds
  | .malformed => acc
  | .record r =>
      if r.type? = some snapshotType then acc
      else modelStep (stampStep i (countStep acc) r) r

/-- The getSessionBounds loop from line index i onward. -/
def boundsGo (i : Nat) (acc : SessionBounds) : List LineParse → SessionBounds
  | [] => acc
  | l :: rest => boundsGo (i + 1) (boundsLine i acc l) rest

/-- Source function getSessionBounds: one pass over the parsed nonblank
lines of a transcript, started at the current time now. -/
def getSessionBounds (now : Int) (lines : List LineParse) : SessionBounds :=
  boundsGo 0
    { startTime := .valid now, endTime := none, messageCount := 0, model? := none }
    lines

/-- The timestamp a line contributes to the bounds: present exactly for a
parseable non-snapshot line whose timestamp field is truthy. -/
def lineStamp : LineParse → Option JsDate
  | .malformed => none
  | .record r => if r.type? = some snapshotType then none else r.timestamp?

/-- JS assignment chaining for endTime: the left value when present,
otherwise the right one. -/
def oor (a b : Option JsDate) : Option JsDate :=
  match a with
  | some x => some x
  | none => b

/-- The last timestamp contributed by a line list, in file order. -/
def lastStamp : List LineParse → Option JsDate
  | [] => none
  | l :: rest => oor (lastStamp rest) (lineStamp l)

/-- Whether a line is counted by messageCount: parseable and not a snapshot
record. -/
def countedLine : LineParse → Bool
  | .malformed => false
  | .record r => decide (r.type? ≠ some snapshotType)

/-- The start time a transcript determines: the first line's timestamp when
that line parses as a non-snapshot record with a truthy timestamp field,
and the synthetic current time now in every other case. -/
def firstStamp (now : Int) : List LineParse → JsDate
  | .record r :: _ =>
      if r.type? = some snapshotType then .valid now
      else
        match r.timestamp? with
        | some t => t
        | none => .valid now
  | _ => .valid now

/-- The content field of an output message: the record envelope when
present, otherwise the literal fallback object built from the type. -/
inductive ContentVal
  | envelope (e : Envelope)
  | fallback (role : String)
  deriving DecidableEq, Repr

/-- One output message of getSessionMessages. -/
structure Message where
  uuid : Option String
  parentUuid : Option String
  type : String
  timestamp : Int
  sessionId : String
  content : ContentVal
  model : Option String
  cwd : Option String
  gitBranch : Option String
  deriving DecidableEq, Repr

/-- JS || over two optional strings. -/
def jsOrStr : Option String → Option String → Option String
  | some a, _ => some a
  | none, b => b

/-- The message one line contributes to getSessionMessages, if any: a line
must parse, carry a truthy non-snapshot type, and carry a truthy timestamp
that parses to a valid date. -/
def msgOf (sessionId : String) : LineParse → Option Message
  | .malformed => none
  | .record r =>
      match r.type? with
      | none => none
      | some t =>
          if t = snapshotType then none
          else
            match r.timestamp? with
            | some (.valid ts) =>
                some
                  { uuid := jsOrStr r.uuid? r.messageId?
                    parentUuid := r.parentUuid?
                    type := t
                    timestamp := ts
                    sessionId := (r.sessionId?).getD sessionId
                    content := match r.message? with
                      | some e => .envelope e
                      | none => .fallback t
                    model := r.message?.bind Envelope.model?
                    cwd := r.cwd?
                    gitBranch := r.gitBranch? }
            | _ => none

/-- Source function getSessionMessages: the per-line tolerant parse of a
transcript into its message sequence, in file order. -/
def getSessionMessages (sessionId : String) (lines : List LineParse) : List Message :=
  lines.filterMap (msgOf sessionId)

/-- Whether a line passes every per-line check of getSessionMessages. -/
def msgIncluded : LineParse → Bool
  | .malformed => false
  | .record r =>
      match r.type? with
      | none => false
      | some t =>
          if t = snapshotType then false
          else
            match r.timestamp? with
            | some (.valid _) => true
            | _ => false

/-- Whether a line is a parseable snapshot record. -/
def isSnapshotLine : LineParse → Bool
  | .malformed => false
  | .record r => decide (r.type? = some snapshotType)

/-- Whether a date is a valid date at or after time t1. -/
def stampGe (t1 : Int) : JsDate → Bool
  | .invalid => false
  | .valid v => decide (t1 ≤ v)

/-- Whether an optional end time, when present, is a valid date at or after
time t1. -/
def stampGeOpt (t1 : Int) : Option JsDate → Bool
  | none => true
  | some d => stampGe t1 d

/-- JS startsWith over our string model. -/
def jsStartsWith (s pre : String) : Bool := pre.data.isPrefixOf s.data

/-- JS endsWith over our string model. -/
def jsEndsWith (s suf : String) : Bool := suf.data.isSuffixOf s.data

/-- JS String.includes: some suffix of the text starts with the needle. -/
def jsIncludes (s sub : String) : Bool := s.data.tails.any (fun t => sub.data.isPrefixOf t)

/-- JS s.slice(0, n) on a string, for nonnegative n: its first n units. -/
def strTake (s : String) (n : Nat) : String := String.mk (s.data.take n)

/-- One todo item, a content and a status. -/
structure TodoItem where
  content : String
  status : String
  deriving DecidableEq, Repr

/-- The parse outcome of one todo JSON document, as the correlator branches
on it: todosArr when the parsed todos field is an array (holding its
elements), single when there is no todos array but content and status are
truthy, other for any other parseable document, malformed when JSON.parse
throws. -/
inductive TodoFileData
  | malformed
  | todosArr (items : List TodoItem)
  | single (item : TodoItem)
  | other
  deriving DecidableEq, Repr

/-- One directory entry of the todos store: a file with its parsed
document, or a directory with its listed subfiles and their documents. -/
inductive TodoEntry
  | file (name : String) (data : TodoFileData)
  | dir (name : String) (subfiles : List (String × TodoFileData))
  deriving DecidableEq, Repr

/-- The name of a todos store entry. -/
def entryName : TodoEntry → String
  | .file n _ => n
  | .dir n _ => n

/-- The todo items one parsed document contributes: the todos array when it
is one, the single record when content and status are truthy, else none. -/
def todosFromData : TodoFileData → List TodoItem
  | .malformed => []
  | .todosArr items => items
  | .single item => [item]
  | .other => []

/-- The todo items one matched store entry contributes: a .json file
contributes its document, a directory contributes each of its .json
subfiles in listing order. -/
def todosFromEntry : TodoEntry → List TodoItem
  | .file n d => if jsEndsWith n ".json" then todosFromData d else []
  | .dir _ subs =>
      subs.flatMap (fun sf => if jsEndsWith sf.1 ".json" then todosFromData sf.2 else [])

/-- Source function findSessionTodos: flatten, in listing order, every
store entry whose name starts with the session id. -/
def findSessionTodos (sessionId : String) (entries : List TodoEntry) : List TodoItem :=
  (entries.filter (fun e => jsStartsWith (entryName e) sessionId)).flatMap todosFromEntry

/-- Whether a debug-log filename matches a session id: it contains the full
id, or starts with the first 8 characters of the id. -/
def debugNameMatches (sessionId name : String) : Bool :=
  jsIncludes name sessionId || jsStartsWith name (strTake sessionId 8)

/-- Source function findSessionDebugLogs over the debug store, given as the
directory listing paired with each file content (none when unreadable):
filter the matching names, keep the first 5, and push each readable content
truncated to its first 5000 units. -/
def findSessionDebugLogs (sessionId : String)
    (files : List (String × Option String)) : List String :=
  ((files.filter (fun f => debugNameMatches sessionId f.1)).take 5).filterMap
    (fun f => f.2.map (fun c => strTake c 5000))

/-- JS || over a parseInt result (none when the parse gave NaN) and a
default: the default replaces an absent or zero value. -/
def jsOrInt (v : Option Int) (d : Int) : Int :=
  match v with
  | none => d
  | some n => if n = 0 then d else n

/-- The effective page limit of a route request:
Math.min(parseInt(limit) || 50, 100). -/
def effLimit (ql : Option Int) : Int := min (jsOrInt ql 50) 100

/-- The effective page offset of a route request: parseInt(offset) || 0. -/
def effOffset (qo : Option Int) : Int := jsOrInt qo 0

/-- JS Array.prototype.slice with two relative indices: a negative index
counts from the end, and both are clamped to the array bounds. -/
def jsSlice {α : Type} (xs : List α) (s e : Int) : List α :=
  let len : Int := xs.length
  let s1 : Int := if s < 0 then max (len + s) 0 else min s len
  let e1 : Int := if e < 0 then max (len + e) 0 else min e len
  (xs.take e1.toNat).drop s1.toNat

/-- One paginated route response: the page and its meta block. -/
structure PageResult (α : Type) where
  data : List α
  total : Nat
  limit : Int
  offset : Int
  hasMore : Bool
  deriving Repr

/-- The pagination step shared by the listing routes: slice the sorted
listing at [offset, offset + limit) and report total and hasMore. -/
def paginate {α : Type} (xs : List α) (ql qo : Option Int) : PageResult α :=
  { data := jsSlice xs (effOffset qo) (effOffset qo + effLimit ql)
    total := xs.length
    limit := effLimit ql
    offset := effOffset qo
    hasMore := decide (effOffset qo + effLimit ql < (xs.length : Int)) }

theorem decChar_encChar (c : Char) (h : c ≠ '-') : decChar (encChar c) = c := by
  unfold encChar decChar
  by_cases h2 : c = '/'
  · simp [h2]
  · simp [h2, h]

theorem dec_enc_list : ∀ (l : List Char), (∀ c ∈ l, c ≠ '-') →
    (l.map encChar).map decChar = l
  | [], _ => rfl
  | c :: rest, h => by
      have h1 : decChar (encChar c) = c :=
        decChar_encChar c (h c (List.mem_cons_self c rest))
      have h2 := dec_enc_list rest (fun x hx => h x (List.mem_cons_of_mem c hx))
      simp [h1, h2]

/-- Claim C6: on every path built only from separators and alphanumeric
characters, the naive decode inverts the encode; and the composition is not
invertible in general, witnessed by a path that holds a literal filler
character together with a dot and an underscore. -/
theorem c6_codec_roundtrip :
    (∀ p : String, (∀ c ∈ p.data, c.isAlphanum = true ∨ c = '/') →
      decodeProjectPath (encodeProjectPath p) = p) ∧
    (∃ p : String, ('-' ∈ p.data ∧ '.' ∈ p.data ∧ '_' ∈ p.data) ∧
      decodeProjectPath (encodeProjectPath p) ≠ p) := by
  constructor
  · intro p h
    have hnf : ∀ c ∈ p.data, c ≠ '-' := by
      intro c hc he
      rcases h c hc with ha | hs
      · rw [he] at ha
        exact absurd ha (by decide)
      · rw [he] at hs
        exact absurd hs (by decide)
    cases p with
    | mk l =>
      cases l with
      | nil => rfl
      | cons c rest =>
        have hcne : c ≠ '-' := hnf c (List.mem_cons_self c rest)
        have hrest : ∀ x ∈ rest, x ≠ '-' :=
          fun x hx => hnf x (List.mem_cons_of_mem c hx)
        by_cases hc : c = '/'
        · subst hc
          show decodeProjectPath (String.mk (('/' :: rest).map encChar)) = _
          have henc : ('/' :: rest).map encChar = '-' :: rest.map encChar := by
            simp [encChar]
          rw [henc]
          unfold decodeProjectPath
          simp [dec_enc_list rest hrest]
        · show decodeProjectPath (String.mk ((c :: rest).map encChar)) = _
          have henc : (c :: rest).map encChar = c :: rest.map encChar := by
            simp [encChar, hc]
          rw [henc]
          unfold decodeProjectPath
          have hcd : decChar c = c := by simp [decChar, hcne]
          simp [hcne, hcd, dec_enc_list rest hrest]
  · refine ⟨"/a-b._c", by decide, by decide⟩

/-- Claim C6 witness: the roundtrip law applied to the concrete path /a/b. -/
theorem c6_codec_roundtrip_witness :
    decodeProjectPath (encodeProjectPath "/a/b") = "/a/b" :=
  c6_codec_roundtrip.1 "/a/b" (by decide)

theorem find_encoded (p : String) :
    ∀ (l : List String), p ∈ l →
    (∀ q ∈ l, encodeProjectPath q = encodeProjectPath p → q = p) →
    (l.map (fun q => (encodeProjectPath q, q))).find?
        (fun e => e.1 == encodeProjectPath p) = some (encodeProjectPath p, p)
  | [], hp, _ => absurd hp (List.not_mem_nil p)
  | q :: rest, hp, hinj => by
      by_cases he : encodeProjectPath q = encodeProjectPath p
      · have hq : q = p := hinj q (List.mem_cons_self q rest) he
        subst hq
        simp [List.find?]
      · have hp2 : p ∈ rest := by
          rcases List.mem_cons.mp hp with h | h
          · exact absurd (h ▸ rfl) he
          · exact h
        have ih := find_encoded p rest hp2
          (fun x hx => hinj x (List.mem_cons_of_mem q hx))
        simp only [List.map_cons, List.find?]
        have hbe : ((encodeProjectPath q : String) == encodeProjectPath p) = false := by
          simp [he]
        simp [hbe, ih]

/-- Claim C5 (amended): whenever the encoding is injective on the config
project keys, the reverse lookup built by buildPathLookup inverts the
encoding for every listed real path. -/
theorem c5_lookup_inverts (ks : List String)
    (hinj : ∀ p ∈ ks, ∀ q ∈ ks, encodeProjectPath p = encodeProjectPath q → p = q)
    (p : String) (hp : p ∈ ks) :
    mapGet (buildPathLookup ⟨some ks⟩) (encodeProjectPath p) = some p := by
  unfold mapGet buildPathLookup
  rw [← List.map_reverse]
  rw [find_encoded p ks.reverse (List.mem_reverse.mpr hp)
    (fun q hq he => hinj q (List.mem_reverse.mp hq) p hp he)]
  rfl

/-- Claim C5 witness: the lookup law at a one-key config. -/
theorem c5_lookup_inverts_witness :
    mapGet (buildPathLookup ⟨some ["/a/b"]⟩) (encodeProjectPath "/a/b") = some "/a/b" :=
  c5_lookup_inverts ["/a/b"] (by decide) "/a/b" (by decide)

/-- Claim C5 counterexample: with config keys /a/b then /a-b, both encode to
the same name -a-b, and the lookup returns the later key /a-b for the
encoding of the earlier key /a/b. -/
theorem c5_counterexample :
    mapGet (buildPathLookup ⟨some ["/a/b", "/a-b"]⟩) (encodeProjectPath "/a/b")
      ≠ some "/a/b" := by decide

theorem dedup_map_lt_of_collision {ks : List String} {p1 p2 : String}
    (hcol : encodeProjectPath p1 = encodeProjectPath p2)
    (hsub : List.Sublist [p1, p2] ks) :
    ((ks.map encodeProjectPath).dedup).length < ks.length := by
  set L := ks.map encodeProjectPath with hL
  have hsubm : List.Sublist [encodeProjectPath p1, encodeProjectPath p2] L := by
    simpa using hsub.map encodeProjectPath
  have hnodup : ¬ L.Nodup := by
    intro hnd
    have h2 := hsubm.nodup hnd
    rw [hcol] at h2
    simp [List.nodup_cons] at h2
  have hdlen : L.dedup.length ≤ L.length := (List.dedup_sublist L).length_le
  have hlt : L.dedup.length < L.length := by
    refine Nat.lt_of_le_of_ne hdlen (fun heq => hnodup ?_)
    rw [← List.Sublist.eq_of_length (List.dedup_sublist L) heq]
    exact List.nodup_dedup L
  calc L.dedup.length < L.length := hlt
    _ = ks.length := List.length_map ks encodeProjectPath

/-- Claim C10: when two distinct config keys share an encoded name, the
reverse lookup maps that name to the later-enumerated key, so the earlier
key is unrecoverable and the map holds fewer entries than the key list. -/
theorem c10_lookup_collision (l1 l2 l3 : List String) (p1 p2 : String)
    (hcol : encodeProjectPath p1 = encodeProjectPath p2)
    (hne : p1 ≠ p2)
    (hlast : ∀ q ∈ l3, encodeProjectPath q ≠ encodeProjectPath p2) :
    mapGet (buildPathLookup ⟨some (l1 ++ p1 :: l2 ++ p2 :: l3)⟩)
        (encodeProjectPath p1) = some p2 ∧
    mapGet (buildPathLookup ⟨some (l1 ++ p1 :: l2 ++ p2 :: l3)⟩)
        (encodeProjectPath p1) ≠ some p1 ∧
    mapSize (buildPathLookup ⟨some (l1 ++ p1 :: l2 ++ p2 :: l3)⟩)
        < (l1 ++ p1 :: l2 ++ p2 :: l3).length := by
  have hget : mapGet (buildPathLookup ⟨some (l1 ++ p1 :: l2 ++ p2 :: l3)⟩)
      (encodeProjectPath p1) = some p2 := by
    unfold mapGet buildPathLookup
    rw [← List.map_reverse]
    have hrev : (l1 ++ p1 :: l2 ++ p2 :: l3).reverse
        = l3.reverse ++ p2 :: (l2.reverse ++ p1 :: l1.reverse) := by
      simp
    rw [hrev, List.map_append, List.find?_append]
    have hnone : (l3.reverse.map (fun q => (encodeProjectPath q, q))).find?
        (fun e => e.1 == encodeProjectPath p1) = none := by
      rw [List.find?_eq_none]
      intro x hx
      rw [List.mem_map] at hx
      obtain ⟨q, hq, rfl⟩ := hx
      simp only [beq_iff_eq]
      exact fun hh => hlast q (List.mem_reverse.mp hq) (hh.trans hcol)
    rw [hnone]
    have hpos : ((encodeProjectPath p2 : String) == encodeProjectPath p1) = true := by
      simp [hcol]
    simp [List.find?_cons_of_pos, hpos]
  refine ⟨hget, ?_, ?_⟩
  · simp only [hget, ne_eq, Option.some.injEq]
    exact fun h => hne h.symm
  · unfold mapSize buildPathLookup
    rw [List.map_map]
    rw [show (Prod.fst ∘ fun p : String => (encodeProjectPath p, p))
        = encodeProjectPath from rfl]
    have hsub : List.Sublist [p1, p2] (l1 ++ p1 :: l2 ++ p2 :: l3) := by
      have s1 : List.Sublist [p1] (p1 :: l2) := (List.nil_sublist l2).cons₂ p1
      have s2 : List.Sublist [p2] (p2 :: l3) := (List.nil_sublist l3).cons₂ p2
      have s3 : List.Sublist ([p1] ++ [p2]) ((p1 :: l2) ++ (p2 :: l3)) := s1.append s2
      have s4 := s3.trans (List.sublist_append_right l1 ((p1 :: l2) ++ (p2 :: l3)))
      simp only [← List.append_assoc] at s4
      exact s4
    exact dedup_map_lt_of_collision hcol hsub

/-- Claim C10 witness: the collision law at the concrete two-key config with
keys /a/b and /a-b. -/
theorem c10_lookup_collision_witness :
    mapGet (buildPathLookup ⟨some ([] ++ "/a/b" :: [] ++ "/a-b" :: [])⟩)
        (encodeProjectPath "/a/b") = some "/a-b" ∧
    mapGet (buildPathLookup ⟨some ([] ++ "/a/b" :: [] ++ "/a-b" :: [])⟩)
        (encodeProjectPath "/a/b") ≠ some "/a/b" ∧
    mapSize (buildPathLookup ⟨some ([] ++ "/a/b" :: [] ++ "/a-b" :: [])⟩)
        < ([] ++ "/a/b" :: [] ++ "/a-b" :: []).length :=
  c10_lookup_collision [] [] [] "/a/b" "/a-b" (by decide) (by decide) (by decide)

theorem oor_none (a : Option JsDate) : oor a none = a := by
  cases a <;> rfl

theorem modelStep_startTime (acc : SessionBounds) (r : JsonRecord) :
    (modelStep acc r).startTime = acc.startTime := by
  unfold modelStep
  split
  · split <;> rfl
  · rfl

theorem modelStep_endTime (acc : SessionBounds) (r : JsonRecord) :
    (modelStep acc r).endTime = acc.endTime := by
  unfold modelStep
  split
  · split <;> rfl
  · rfl

theorem modelStep_count (acc : SessionBounds) (r : JsonRecord) :
    (modelStep acc r).messageCount = acc.messageCount := by
  unfold modelStep
  split
  · split <;> rfl
  · rfl

theorem stampStep_startTime (i : Nat) (acc : SessionBounds) (r : JsonRecord)
    (h : i ≠ 0) : (stampStep i acc r).startTime = acc.startTime := by
  unfold stampStep
  split <;> simp [h]

theorem stampStep_startTime_zero (acc : SessionBounds) (r : JsonRecord)
    (t : JsDate) (hts : r.timestamp? = some t) :
    (stampStep 0 acc r).startTime = t := by
  unfold stampStep
  rw [hts]
  simp

theorem stampStep_endTime (i : Nat) (acc : SessionBounds) (r : JsonRecord) :
    (stampStep i acc r).endTime = oor r.timestamp? acc.endTime := by
  unfold stampStep
  cases hts : r.timestamp? <;> simp [hts, oor]

theorem stampStep_count (i : Nat) (acc : SessionBounds) (r : JsonRecord) :
    (stampStep i acc r).messageCount = acc.messageCount := by
  unfold stampStep
  split <;> rfl

theorem boundsLine_startTime (i : Nat) (acc : SessionBounds) (l : LineParse)
    (h : i ≠ 0) : (boundsLine i acc l).startTime = acc.startTime := by
  cases l with
  | malformed => rfl
  | record r =>
      show (if r.type? = some snapshotType then acc
        else modelStep (stampStep i (countStep acc) r) r).startTime = _
      split
      · rfl
      · rw [modelStep_startTime, stampStep_startTime i _ r h]
        rfl

theorem boundsLine_endTime (i : Nat) (acc : SessionBounds) (l : LineParse) :
    (boundsLine i acc l).endTime = oor (lineStamp l) acc.endTime := by
  cases l with
  | malformed => rfl
  | record r =>
      show (if r.type? = some snapshotType then acc
        else modelStep (stampStep i (countStep acc) r) r).endTime
        = oor (if r.type? = some snapshotType then none else r.timestamp?) acc.endTime
      split
      · next hsnap => simp [hsnap, oor]
      · next hsnap =>
          rw [modelStep_endTime, stampStep_endTime]
          rfl

theorem boundsLine_count (i : Nat) (acc : SessionBounds) (l : LineParse) :
    (boundsLine i acc l).messageCount
      = acc.messageCount + (if countedLine l then 1 else 0) := by
  cases l with
  | malformed => rfl
  | record r =>
      show (if r.type? = some snapshotType then acc
        else modelStep (stampStep i (countStep acc) r) r).messageCount
        = acc.messageCount + (if decide (r.type? ≠ some snapshotType) then 1 else 0)
      split
      · next hsnap => simp [hsnap]
      · next hsnap =>
          rw [modelStep_count, stampStep_count]
          simp [countStep, hsnap]

theorem boundsGo_startTime (lines : List LineParse) :
    ∀ (i : Nat) (acc : SessionBounds), i ≠ 0 →
    (boundsGo i acc lines).startTime = acc.startTime := by
  induction lines with
  | nil => intro i acc _; rfl
  | cons l rest ih =>
      intro i acc h
      show (boundsGo (i + 1) (boundsLine i acc l) rest).startTime = _
      rw [ih (i + 1) _ (Nat.succ_ne_zero i), boundsLine_startTime i acc l h]

theorem boundsGo_endTime (lines : List LineParse) :
    ∀ (i : Nat) (acc : SessionBounds),
    (boundsGo i acc lines).endTime = oor (lastStamp lines) acc.endTime := by
  induction lines with
  | nil => intro i acc; simp [boundsGo, lastStamp, oor]
  | cons l rest ih =>
      intro i acc
      show (boundsGo (i + 1) (boundsLine i acc l) rest).endTime = _
      rw [ih (i + 1), boundsLine_endTime]
      show oor (lastStamp rest) (oor (lineStamp l) acc.endTime)
        = oor (oor (lastStamp rest) (lineStamp l)) acc.endTime
      cases lastStamp rest <;> cases lineStamp l <;> rfl

theorem boundsGo_count (lines : List LineParse) :
    ∀ (i : Nat) (acc : SessionBounds),
    (boundsGo i acc lines).messageCount
      = acc.messageCount + List.countP countedLine lines := by
  induction lines with
  | nil => intro i acc; simp [boundsGo, List.countP_nil]
  | cons l rest ih =>
      intro i acc
      show (boundsGo (i + 1) (boundsLine i acc l) rest).messageCount = _
      rw [ih (i + 1), boundsLine_count, List.countP_cons]
      cases h : countedLine l <;> simp [h]
      all_goals omega

theorem bounds_endTime (now : Int) (lines : List LineParse) :
    (getSessionBounds now lines).endTime = lastStamp lines := by
  unfold getSessionBounds
  rw [boundsGo_endTime]
  exact oor_none _

theorem bounds_count (now : Int) (lines : List LineParse) :
    (getSessionBounds now lines).messageCount = List.countP countedLine lines := by
  unfold getSessionBounds
  rw [boundsGo_count]
  simp

theorem bounds_startTime_first (now : Int) (r : JsonRecord) (rest : List LineParse)
    (t1 : JsDate) (hsnap : r.type? ≠ some snapshotType)
    (hts : r.timestamp? = some t1) :
    (getSessionBounds now (.record r :: rest)).startTime = t1 := by
  unfold getSessionBounds
  show (boundsGo 1 (boundsLine 0 _ (.record r)) rest).startTime = t1
  rw [boundsGo_startTime rest 1 _ Nat.one_ne_zero]
  show (boundsLine 0 _ (.record r)).startTime = t1
  show (if r.type? = some snapshotType then _
    else modelStep (stampStep 0 (countStep _) r) r).startTime = t1
  rw [if_neg hsnap, modelStep_startTime, stampStep_startTime_zero _ r t1 hts]

theorem bounds_startTime_eq (now : Int) (lines : List LineParse) :
    (getSessionBounds now lines).startTime = firstStamp now lines := by
  cases lines with
  | nil => rfl
  | cons l rest =>
      unfold getSessionBounds
      show (boundsGo 1 (boundsLine 0 _ l) rest).startTime = _
      rw [boundsGo_startTime rest 1 _ Nat.one_ne_zero]
      cases l with
      | malformed => rfl
      | record r =>
          show (if r.type? = some snapshotType then _
            else modelStep (stampStep 0 (countStep _) r) r).startTime
            = firstStamp now (.record r :: rest)
          by_cases hsnap : r.type? = some snapshotType
          · simp [hsnap, firstStamp]
          · rw [if_neg hsnap, modelStep_startTime]
            cases hts : r.timestamp? with
            | some t =>
                rw [stampStep_startTime_zero _ r t hts]
                simp [firstStamp, hsnap, hts]
            | none =>
                show (stampStep 0 (countStep _) r).startTime = _
                unfold stampStep
                rw [hts]
                simp [firstStamp, countStep, hsnap, hts]

theorem lastStamp_mem (lines : List LineParse) (d : JsDate)
    (h : lastStamp lines = some d) : d ∈ lines.filterMap lineStamp := by
  induction lines with
  | nil => simp [lastStamp] at h
  | cons l rest ih =>
      rw [List.mem_filterMap]
      unfold lastStamp at h
      cases hrest : lastStamp rest with
      | some x =>
          rw [hrest] at h
          have hd : x = d := by simpa [oor] using h
          obtain ⟨a, ha, hfa⟩ := List.mem_filterMap.mp (ih (hd ▸ hrest))
          exact ⟨a, List.mem_cons_of_mem l ha, hfa⟩
      | none =>
          rw [hrest] at h
          simp only [oor] at h
          exact ⟨l, List.mem_cons_self l rest, h⟩

theorem msgOf_isSome (sessionId : String) (l : LineParse) :
    (msgOf sessionId l).isSome = msgIncluded l := by
  cases l with
  | malformed => rfl
  | record r =>
      simp only [msgOf, msgIncluded]
      cases r.type? with
      | none => rfl
      | some t =>
          by_cases ht : t = snapshotType
          · simp [ht]
          · simp only [ht, if_false]
            cases hts : r.timestamp? with
            | none => rfl
            | some d => cases d <;> rfl

theorem filterMap_msgOf_filter (sessionId : String) (lines : List LineParse) :
    (lines.filter msgIncluded).filterMap (msgOf sessionId)
      = lines.filterMap (msgOf sessionId) := by
  induction lines with
  | nil => rfl
  | cons l rest ih =>
      cases hinc : msgIncluded l with
      | true =>
          have hsome : (msgOf sessionId l).isSome = true := by
            rw [msgOf_isSome, hinc]
          obtain ⟨m, hm⟩ := Option.isSome_iff_exists.mp hsome
          simp [List.filter_cons, hinc, List.filterMap_cons, hm, ih]
      | false =>
          have hnone : msgOf sessionId l = none := by
            have := msgOf_isSome sessionId l
            rw [hinc] at this
            exact Option.not_isSome_iff_eq_none.mp (by simp [this])
          simp [List.filter_cons, hinc, List.filterMap_cons, hnone, ih]

theorem msgIncluded_counted (l : LineParse) (h : msgIncluded l = true) :
    countedLine l = true := by
  cases l with
  | malformed => simp [msgIncluded] at h
  | record r =>
      simp only [msgIncluded] at h
      simp only [countedLine]
      cases hty : r.type? with
      | none => rw [hty] at h; simp at h
      | some t =>
          rw [hty] at h
          by_cases ht : t = snapshotType
          · simp [ht] at h
          · simp [ht]

theorem isSnapshot_not_counted (l : LineParse) (h : isSnapshotLine l = true) :
    countedLine l = false ∧ msgIncluded l = false := by
  cases l with
  | malformed => simp [isSnapshotLine] at h
  | record r =>
      simp only [isSnapshotLine] at h
      have hty : r.type? = some snapshotType := by simpa using h
      constructor
      · simp [countedLine, hty]
      · simp [msgIncluded, hty]

/-- Claim C1 counterexample: a transcript whose first line lacks a
timestamp and whose second line carries timestamp 5. The claim says
startTime is the timestamp of the first record with a valid timestamp,
that is 5; the reader instead leaves startTime at the synthetic current
time 1000, because only line index 0 may set startTime. -/
theorem c1_counterexample :
    (getSessionBounds 1000
        [.record (mkRec (some "user") none),
         .record (mkRec (some "user") (some (.valid 5)))]).startTime
      = JsDate.valid 1000 ∧
    (getSessionBounds 1000
        [.record (mkRec (some "user") none),
         .record (mkRec (some "user") (some (.valid 5)))]).startTime
      ≠ JsDate.valid 5 := by decide

/-- Claim C1 (amended): when the first transcript line parses as a
non-snapshot record bearing a truthy timestamp T1, getSessionBounds returns
startTime == T1; and endTime is the timestamp of the last parseable
non-snapshot line bearing a truthy timestamp, taken in file order. -/
theorem c1_session_bounds (now : Int) (r : JsonRecord) (rest : List LineParse)
    (t1 : JsDate) (hsnap : r.type? ≠ some snapshotType)
    (hts : r.timestamp? = some t1) :
    (getSessionBounds now (.record r :: rest)).startTime = t1 ∧
    (getSessionBounds now (.record r :: rest)).endTime
      = lastStamp (.record r :: rest) :=
  ⟨bounds_startTime_first now r rest t1 hsnap hts,
   bounds_endTime now (.record r :: rest)⟩

/-- Claim C1 witness: the amended bounds law at a concrete two-line
transcript with timestamps 3 and 7. -/
theorem c1_session_bounds_witness :
    (getSessionBounds 0
        [.record (mkRec (some "user") (some (.valid 3))),
         .record (mkRec (some "assistant") (some (.valid 7)))]).startTime
      = JsDate.valid 3 ∧
    (getSessionBounds 0
        [.record (mkRec (some "user") (some (.valid 3))),
         .record (mkRec (some "assistant") (some (.valid 7)))]).endTime
      = lastStamp
        [.record (mkRec (some "user") (some (.valid 3))),
         .record (mkRec (some "assistant") (some (.valid 7)))] :=
  c1_session_bounds 0 (mkRec (some "user") (some (.valid 3)))
    [.record (mkRec (some "assistant") (some (.valid 7)))]
    (.valid 3) (by decide) (by decide)

/-- Claim C2 counterexample: a single parseable line with no type field
and no timestamp. The claim says such a line is excluded from
messageCount; the reader counts it, returning messageCount 1. -/
theorem c2_counterexample :
    (getSessionBounds 0 [.record (mkRec none none)]).messageCount = 1 ∧
    (getSessionBounds 0 [.record (mkRec none none)]).messageCount ≠ 0 := by
  decide

/-- Claim C2 (amended): a line that is malformed JSON, lacks a truthy
type, is a snapshot record, or lacks a valid timestamp never appears in
the message sequence (dropping all such lines leaves the sequence
unchanged); messageCount counts exactly the parseable non-snapshot lines,
even those without a type or valid timestamp; endTime is determined by
the truthy-timestamp lines alone, so such lines never set endTime; and
startTime is the first line's timestamp when the first line parses as a
non-snapshot record with a truthy timestamp, and the synthetic current
time otherwise — so a timestamp-less line never supplies startTime, but a
timestamp-less, malformed or snapshot first line does force the synthetic
startTime. -/
theorem c2_line_tolerance (sessionId : String) (now : Int) (lines : List LineParse) :
    getSessionMessages sessionId (lines.filter msgIncluded)
      = getSessionMessages sessionId lines ∧
    (getSessionBounds now lines).messageCount = List.countP countedLine lines ∧
    (getSessionBounds now lines).endTime = lastStamp lines ∧
    (getSessionBounds now lines).startTime = firstStamp now lines :=
  ⟨filterMap_msgOf_filter sessionId lines,
   bounds_count now lines,
   bounds_endTime now lines,
   bounds_startTime_eq now lines⟩

/-- Claim C3 counterexample: a transcript whose two lines carry the
decreasing timestamps 100 and 50. Both bounds are present, yet startTime
is the date at 100 and endTime the date at 50, so startTime <= endTime
fails. -/
theorem c3_counterexample :
    (getSessionBounds 0
        [.record (mkRec (some "user") (some (.valid 100))),
         .record (mkRec (some "user") (some (.valid 50)))]).startTime
      = JsDate.valid 100 ∧
    (getSessionBounds 0
        [.record (mkRec (some "user") (some (.valid 100))),
         .record (mkRec (some "user") (some (.valid 50)))]).endTime
      = some (JsDate.valid 50) ∧
    ¬ (100 : Int) ≤ 50 := by decide

/-- Claim C3 (amended): messageCount is always nonnegative; and when the
first line parses as a non-snapshot record with valid timestamp T1 and
every truthy timestamp in the file is a valid date at or after T1, then
startTime is the date at T1 and endTime, when present, is a valid date at
or after T1, so startTime <= endTime. -/
theorem c3_bounds_invariant (now : Int) (r : JsonRecord) (rest : List LineParse)
    (t1 : Int) (hsnap : r.type? ≠ some snapshotType)
    (hts : r.timestamp? = some (.valid t1))
    (hmono : ∀ d ∈ (LineParse.record r :: rest).filterMap lineStamp,
        stampGe t1 d = true) :
    (getSessionBounds now (.record r :: rest)).startTime = JsDate.valid t1 ∧
    stampGeOpt t1 (getSessionBounds now (.record r :: rest)).endTime = true ∧
    0 ≤ ((getSessionBounds now (.record r :: rest)).messageCount : Int) := by
  refine ⟨bounds_startTime_first now r rest (.valid t1) hsnap hts, ?_, Int.natCast_nonneg _⟩
  rw [bounds_endTime]
  cases hlast : lastStamp (LineParse.record r :: rest) with
  | none => rfl
  | some d =>
      show stampGe t1 d = true
      exact hmono d (lastStamp_mem _ d hlast)

/-- Claim C3 witness: the amended invariant at a concrete transcript with
increasing timestamps 1 and 2. -/
theorem c3_bounds_invariant_witness :
    (getSessionBounds 0
        [.record (mkRec (some "user") (some (.valid 1))),
         .record (mkRec (some "assistant") (some (.valid 2)))]).startTime
      = JsDate.valid 1 ∧
    stampGeOpt 1 (getSessionBounds 0
        [.record (mkRec (some "user") (some (.valid 1))),
         .record (mkRec (some "assistant") (some (.valid 2)))]).endTime = true ∧
    0 ≤ ((getSessionBounds 0
        [.record (mkRec (some "user") (some (.valid 1))),
         .record (mkRec (some "assistant") (some (.valid 2)))]).messageCount : Int) :=
  c3_bounds_invariant 0 (mkRec (some "user") (some (.valid 1)))
    [.record (mkRec (some "assistant") (some (.valid 2)))]
    1 (by decide) (by decide) (by decide)

/-- Claim C4: on a transcript whose lines are each either a valid,
timestamped, non-snapshot record or a snapshot record, messageCount equals
the number of non-snapshot lines and the message sequence has exactly that
length; snapshot lines contribute to neither. -/
theorem c4_snapshot_exclusion (sessionId : String) (now : Int)
    (lines : List LineParse)
    (h : ∀ l ∈ lines, msgIncluded l = true ∨ isSnapshotLine l = true) :
    (getSessionBounds now lines).messageCount = List.countP msgIncluded lines ∧
    (getSessionMessages sessionId lines).length = List.countP msgIncluded lines := by
  constructor
  · rw [bounds_count]
    refine List.countP_congr (fun x hx => ?_)
    rcases h x hx with h1 | h1
    · simp [msgIncluded_counted x h1, h1]
    · rcases isSnapshot_not_counted x h1 with ⟨h2, h3⟩
      simp [h2, h3]
  · unfold getSessionMessages
    rw [List.length_filterMap_eq_countP]
    exact List.countP_congr (fun x hx => by simp [msgOf_isSome])

/-- Claim C4 witness: the exclusion law at a concrete transcript with two
valid records around one snapshot record. -/
theorem c4_snapshot_exclusion_witness :
    (getSessionBounds 0
        [.record (mkRec (some "user") (some (.valid 1))),
         .record (mkRec (some snapshotType) (some (.valid 1))),
         .record (mkRec (some "assistant") (some (.valid 2)))]).messageCount
      = List.countP msgIncluded
        [.record (mkRec (some "user") (some (.valid 1))),
         .record (mkRec (some snapshotType) (some (.valid 1))),
         .record (mkRec (some "assistant") (some (.valid 2)))] ∧
    (getSessionMessages "s"
        [.record (mkRec (some "user") (some (.valid 1))),
         .record (mkRec (some snapshotType) (some (.valid 1))),
         .record (mkRec (some "assistant") (some (.valid 2)))]).length
      = List.countP msgIncluded
        [.record (mkRec (some "user") (some (.valid 1))),
         .record (mkRec (some snapshotType) (some (.valid 1))),
         .record (mkRec (some "assistant") (some (.valid 2)))] :=
  c4_snapshot_exclusion "s" 0
    [.record (mkRec (some "user") (some (.valid 1))),
     .record (mkRec (some snapshotType) (some (.valid 1))),
     .record (mkRec (some "assistant") (some (.valid 2)))]
    (by decide)

/-- Claim C7: when the todos store entries matching a session id are
exactly one .json file holding a single pending record and one directory
holding two .json files with two-item todos arrays, findSessionTodos
returns exactly those 5 items, concatenated in directory-listing order. -/
theorem c7_todo_merge (sessionId : String) (entries : List TodoEntry)
    (fn dn s1 s2 : String) (it a b c d : TodoItem)
    (hmatch : entries.filter (fun e => jsStartsWith (entryName e) sessionId)
        = [.file fn (.single it), .dir dn [(s1, .todosArr [a, b]), (s2, .todosArr [c, d])]])
    (hfn : jsEndsWith fn ".json" = true)
    (hs1 : jsEndsWith s1 ".json" = true)
    (hs2 : jsEndsWith s2 ".json" = true) :
    findSessionTodos sessionId entries = [it, a, b, c, d] ∧
    (findSessionTodos sessionId entries).length = 5 := by
  have hres : findSessionTodos sessionId entries = [it, a, b, c, d] := by
    unfold findSessionTodos
    rw [hmatch]
    simp [todosFromEntry, todosFromData, hfn, hs1, hs2]
  exact ⟨hres, by rw [hres]; rfl⟩

/-- Claim C7 witness: the merge law at a concrete store with one unmatched
file, one matched single-record file and one matched directory. -/
theorem c7_todo_merge_witness :
    findSessionTodos "sess"
        [.file "zzz.json" (.single ⟨"n", "pending"⟩),
         .file "sess-1.json" (.single ⟨"x", "pending"⟩),
         .dir "sess-2"
           [("a.json", .todosArr [⟨"a1", "pending"⟩, ⟨"a2", "completed"⟩]),
            ("b.json", .todosArr [⟨"b1", "pending"⟩, ⟨"b2", "in_progress"⟩])]]
      = [⟨"x", "pending"⟩, ⟨"a1", "pending"⟩, ⟨"a2", "completed"⟩,
         ⟨"b1", "pending"⟩, ⟨"b2", "in_progress"⟩] ∧
    (findSessionTodos "sess"
        [.file "zzz.json" (.single ⟨"n", "pending"⟩),
         .file "sess-1.json" (.single ⟨"x", "pending"⟩),
         .dir "sess-2"
           [("a.json", .todosArr [⟨"a1", "pending"⟩, ⟨"a2", "completed"⟩]),
            ("b.json", .todosArr [⟨"b1", "pending"⟩, ⟨"b2", "in_progress"⟩])]]).length
      = 5 :=
  c7_todo_merge "sess"
    [.file "zzz.json" (.single ⟨"n", "pending"⟩),
     .file "sess-1.json" (.single ⟨"x", "pending"⟩),
     .dir "sess-2"
       [("a.json", .todosArr [⟨"a1", "pending"⟩, ⟨"a2", "completed"⟩]),
        ("b.json", .todosArr [⟨"b1", "pending"⟩, ⟨"b2", "in_progress"⟩])]]
    "sess-1.json" "sess-2" "a.json" "b.json"
    ⟨"x", "pending"⟩ ⟨"a1", "pending"⟩ ⟨"a2", "completed"⟩
    ⟨"b1", "pending"⟩ ⟨"b2", "in_progress"⟩
    (by decide) (by decide) (by decide) (by decide)

/-- Claim C8: findSessionDebugLogs returns at most 5 snippets, and every
returned snippet is the content of a store file whose name contains the
full session id or starts with its first 8 characters, truncated to at
most 5000 units. -/
theorem c8_debug_logs (sessionId : String) (files : List (String × Option String)) :
    (findSessionDebugLogs sessionId files).length ≤ 5 ∧
    ∀ l ∈ findSessionDebugLogs sessionId files,
      l.data.length ≤ 5000 ∧
      ∃ f ∈ files, debugNameMatches sessionId f.1 = true ∧
        f.2.map (fun c => strTake c 5000) = some l := by
  constructor
  · calc (findSessionDebugLogs sessionId files).length
        ≤ ((files.filter (fun f => debugNameMatches sessionId f.1)).take 5).length :=
          List.length_filterMap_le _ _
      _ ≤ 5 := List.length_take_le _ _
  · intro l hl
    unfold findSessionDebugLogs at hl
    obtain ⟨f, hf5, hmap⟩ := List.mem_filterMap.mp hl
    have hfm := List.mem_of_mem_take hf5
    obtain ⟨hffiles, hpred⟩ := List.mem_filter.mp hfm
    cases hf2 : f.2 with
    | none => rw [hf2] at hmap; simp at hmap
    | some content =>
        rw [hf2] at hmap
        have hlc : l = strTake content 5000 := by
          simpa using hmap.symm
        constructor
        · rw [hlc]
          show (content.data.take 5000).length ≤ 5000
          exact List.length_take_le _ _
        · exact ⟨f, hffiles, by simpa using hpred, by rw [hf2]; simpa using hmap⟩

/-- Claim C8 witness: the debug-log law applied at a concrete store, at
its one returned snippet. -/
theorem c8_debug_logs_witness :
    ("hello" : String).data.length ≤ 5000 ∧
    ∃ f ∈ [(("abcdefgh-1.txt" : String), (some "hello" : Option String))],
      debugNameMatches "abcdefgh-1" f.1 = true ∧
      f.2.map (fun c => strTake c 5000) = some "hello" :=
  (c8_debug_logs "abcdefgh-1" [("abcdefgh-1.txt", some "hello")]).2 "hello" (by decide)

/-- Claim C9 counterexample: a query whose limit parses to -1 over a
one-item listing. The claim says the page holds min(L, max(0, K - O))
items, here -1; the route returns an empty page, because a negative slice
bound counts from the end of the array. -/
theorem c9_counterexample :
    ¬ (((paginate [()] (some (-1)) none).data.length : Int)
        = min (effLimit (some (-1)))
            (max 0 ((([()] : List Unit).length : Int) - effOffset none))) := by
  decide

/-- Claim C9 (amended): when the effective limit L and offset O parsed
from the query are nonnegative, the returned page holds exactly
min(L, max(0, K - O)) items for a listing of size K, hasMore is
O + L < K, and total is K. -/
theorem c9_pagination {α : Type} (xs : List α) (ql qo : Option Int)
    (hL : 0 ≤ effLimit ql) (hO : 0 ≤ effOffset qo) :
    ((paginate xs ql qo).data.length : Int)
        = min (effLimit ql) (max 0 ((xs.length : Int) - effOffset qo)) ∧
    (paginate xs ql qo).hasMore
        = decide (effOffset qo + effLimit ql < (xs.length : Int)) ∧
    (paginate xs ql qo).total = xs.length := by
  refine ⟨?_, rfl, rfl⟩
  show ((jsSlice xs (effOffset qo) (effOffset qo + effLimit ql)).length : Int) = _
  set O := effOffset qo with hOdef
  set L := effLimit ql with hLdef
  unfold jsSlice
  have hO2 : ¬ O < 0 := not_lt.mpr hO
  have hOL : ¬ O + L < 0 := by omega
  simp only [hO2, hOL, if_false]
  rw [List.length_drop, List.length_take]
  omega

/-- Claim C9 witness: the pagination law at a three-item listing with
default query parameters. -/
theorem c9_pagination_witness :
    ((paginate ["a", "b", "c"] none none).data.length : Int)
        = min (effLimit none)
            (max 0 (((["a", "b", "c"] : List String).length : Int) - effOffset none)) ∧
    (paginate ["a", "b", "c"] none none).hasMore
        = decide (effOffset none + effLimit none
            < ((["a", "b", "c"] : List String).length : Int)) ∧
    (paginate ["a", "b", "c"] none none).total = (["a", "b", "c"] : List String).length :=
  c9_pagination ["a", "b", "c"] none none (by decide) (by decide)

end ClaudeExplorer
